import Mathlib

/-!
Verification of the ignore-pattern matching engine of `contextr`
(`src/contextr/utils/ignore_utils.py`).

The embedding models:

* Python string primitives used by the source (`str.strip`, `str.replace`,
  `re.escape`, `str.startswith`, slicing);
* the regex fragment produced by `IgnoreManager._pattern_to_regex`
  (literals, `.*?`, `[^/]*`, `[^/]`, the `(^|/)` / `^` anchors and the
  `(/|$)` / `$` suffixes) together with `re.search` semantics on it;
* the rule list (`_Rule`) and the operations `_load_patterns`,
  `compile_patterns`, `should_ignore`, `add_pattern`, `remove_pattern`,
  `save_patterns`, `list_patterns`, `clear_patterns`, `set_patterns`.

Filesystem path resolution in `should_ignore`
(`Path(path).resolve().relative_to(base_dir)`) is not pure string code and is
modelled by an `Option String` argument: `some rel` is the successfully
computed root-relative path, `none` is the `ValueError`/`OSError` branch.
The case-insensitive compile flag used on Windows/macOS is out of scope: the
model fixes the Linux (case-sensitive, flag `0`) behaviour.
-/

namespace Contextr

/-- Whitespace characters removed by Python `str.strip()` (ASCII fragment,
which covers every string appearing in this development). -/
def pyIsSpace (c : Char) : Bool :=
  c == ' ' || c == '\t' || c == '\n' || c == '\r' || c == '\x0b' || c == '\x0c'

/-- Python `str.strip()` on a character list: drop whitespace at both ends. -/
def pyStripL (l : List Char) : List Char :=
  (((l.dropWhile pyIsSpace).reverse.dropWhile pyIsSpace)).reverse

/-- Python `str.strip()`. -/
def pyStrip (s : String) : String :=
  ⟨pyStripL s.data⟩

/-- Python `str.rstrip()` (used only to state the save/load precondition). -/
def pyStripRight (s : String) : String :=
  ⟨(s.data.reverse.dropWhile pyIsSpace).reverse⟩

/-- Python `str.startswith`. -/
def strStartsWith (s pre : String) : Bool :=
  pre.data.isPrefixOf s.data

/-- Python `str.endswith`. -/
def strEndsWith (s suf : String) : Bool :=
  suf.data.isSuffixOf s.data

/-- Python slicing `s[n:]`. -/
def strDrop (s : String) (n : Nat) : String :=
  ⟨s.data.drop n⟩

/-- Python slicing `s[:-1]`. -/
def strDropLast (s : String) : String :=
  ⟨s.data.dropLast⟩

/-- Fuelled worker for Python `str.replace`: leftmost, non-overlapping,
the replacement text is not rescanned. -/
def pyReplaceF (t r : List Char) : Nat → List Char → List Char
  | _, [] => []
  | 0, s => s
  | fuel + 1, c :: cs =>
    if !t.isEmpty && t.isPrefixOf (c :: cs) then
      r ++ pyReplaceF t r fuel (cs.drop (t.length - 1))
    else
      c :: pyReplaceF t r fuel cs

/-- Python `str.replace` (every step of `pyReplaceF` consumes at least one
character, so `s.length` fuel is enough). -/
def pyReplace (s t r : String) : String :=
  ⟨pyReplaceF t.data r.data s.data.length s.data⟩

/-- The characters escaped by Python `re.escape` (CPython ≥ 3.7
`_special_chars_map`). -/
def pySpecialRe (c : Char) : Bool :=
  ['(', ')', '[', ']', '\x7b', '\x7d', '?', '*', '+', '-', '|', '^', '$',
   '\\', '.', '&', '~', '#', ' ', '\t', '\n', '\r', '\x0b', '\x0c'].contains c

/-- Python `re.escape` on a character list. -/
def reEscapeL (l : List Char) : List Char :=
  (l.map (fun c => if pySpecialRe c then ['\\', c] else [c])).flatten

/-! ### The regex fragment emitted by `_pattern_to_regex`

After `re.escape` and the four `str.replace` rewrites, the compiled pattern
is a concatenation of literal characters (possibly backslash-escaped),
`.*?` (any characters, `.` excludes newline), `[^/]*` and `[^/]`, wrapped in
a `^` or `(^|/)` prefix and a `$` or `(/|$)` suffix.  The atoms, the two
anchors and the two suffixes below are exactly these shapes, and matching
implements `re.search` (match may start anywhere; alternatives as written;
`$` also matches just before a single trailing newline, as in Python without
`re.MULTILINE`). -/

/-- One atom of the emitted regex fragment. -/
inductive RAtom where
  | lit (c : Char)
  | anyLazy
  | starNonSlash
  | oneNonSlash
deriving DecidableEq, Repr

/-- The leading anchor: `^` (anchored pattern) or `(^|/)` (unanchored). -/
inductive RPre where
  | caret
  | boundary
deriving DecidableEq, Repr

/-- The trailing part: `$` (plain pattern) or `(/|$)` (directory-only). -/
inductive RSuf where
  | dollar
  | slashOrEnd
deriving DecidableEq, Repr

/-- A compiled pattern: anchor, body, suffix. -/
structure Regex where
  pre : RPre
  body : List RAtom
  suf : RSuf
deriving DecidableEq, Repr

/-- Can the suffix succeed on the remaining input?  `$` matches at the end or
just before a trailing newline; `(/|$)` additionally matches a literal `/`
(everything after it is unconstrained because the regex ends there). -/
def sufOk : RSuf → List Char → Bool
  | RSuf.dollar, s => s.isEmpty || s == ['\n']
  | RSuf.slashOrEnd, s => s.head? == some '/' || s.isEmpty || s == ['\n']

/-- Fuelled matcher: does `atoms` followed by `suf` match a prefix of `s`?
Each recursive call removes an atom or consumes a character, so
`atoms.length + s.length` fuel is enough. -/
def matchFromF : Nat → List RAtom → RSuf → List Char → Bool
  | 0, _, _, _ => false
  | _ + 1, [], suf, s => sufOk suf s
  | fuel + 1, RAtom.lit c :: as, suf, s =>
    match s with
    | [] => false
    | x :: xs => x == c && matchFromF fuel as suf xs
  | fuel + 1, RAtom.oneNonSlash :: as, suf, s =>
    match s with
    | [] => false
    | x :: xs => x != '/' && matchFromF fuel as suf xs
  | fuel + 1, RAtom.anyLazy :: as, suf, s =>
    matchFromF fuel as suf s ||
      match s with
      | [] => false
      | x :: xs => x != '\n' && matchFromF fuel (RAtom.anyLazy :: as) suf xs
  | fuel + 1, RAtom.starNonSlash :: as, suf, s =>
    matchFromF fuel as suf s ||
      match s with
      | [] => false
      | x :: xs => x != '/' && matchFromF fuel (RAtom.starNonSlash :: as) suf xs

/-- Match `atoms` followed by `suf` at the start of `s`. -/
def matchFrom (as : List RAtom) (suf : RSuf) (s : List Char) : Bool :=
  matchFromF (as.length + s.length + 1) as suf s

/-- Try the `/` alternative of the `(^|/)` anchor at every position of `s`. -/
def searchAfterSlash (as : List RAtom) (suf : RSuf) : List Char → Bool
  | [] => false
  | c :: cs => (c == '/' && matchFrom as suf cs) || searchAfterSlash as suf cs

/-- Semantics of `re.search` on a compiled pattern: `^` only allows a match at the start,
`(^|/)` allows the start or any position right after a `/`. -/
def regexSearchL (r : Regex) (s : List Char) : Bool :=
  match r.pre with
  | RPre.caret => matchFrom r.body r.suf s
  | RPre.boundary => matchFrom r.body r.suf s || searchAfterSlash r.body r.suf s

/-- Parse the body of an emitted regex into atoms.  Longest shapes first; a
bare regex metacharacter outside the emitted shapes fails the parse (it can
never be produced by `_pattern_to_regex`). -/
def parseBody : List Char → Option (List RAtom)
  | [] => some []
  | '.' :: '*' :: '?' :: rest => (parseBody rest).map (RAtom.anyLazy :: ·)
  | '[' :: '^' :: '/' :: ']' :: '*' :: rest => (parseBody rest).map (RAtom.starNonSlash :: ·)
  | '[' :: '^' :: '/' :: ']' :: rest => (parseBody rest).map (RAtom.oneNonSlash :: ·)
  | '\\' :: c :: rest => (parseBody rest).map (RAtom.lit c :: ·)
  | c :: rest =>
    if ['(', ')', '[', ']', '\x7b', '\x7d', '?', '*', '+', '|', '^', '$',
        '\\', '.'].contains c then
      none
    else
      (parseBody rest).map (RAtom.lit c :: ·)

/-- Parse a full emitted regex: strip the anchor, strip the suffix, parse the
body. -/
def parseRegex (s : List Char) : Option Regex :=
  let pre1 :=
    if ['(', '^', '|', '/', ')'].isPrefixOf s then some (RPre.boundary, s.drop 5)
    else if ['^'].isPrefixOf s then some (RPre.caret, s.drop 1)
    else none
  match pre1 with
  | none => none
  | some (pre, s1) =>
    let suf1 :=
      if ['(', '/', '|', '$', ')'].isSuffixOf s1 then
        some (RSuf.slashOrEnd, s1.take (s1.length - 5))
      else if ['$'].isSuffixOf s1 then some (RSuf.dollar, s1.take (s1.length - 1))
      else none
    match suf1 with
    | none => none
    | some (suf, s2) =>
      match parseBody s2 with
      | none => none
      | some body => some ⟨pre, body, suf⟩

/-- Model of `compiled.search(path)`: parse the stored regex text and run the search.
A text outside the emitted grammar (never produced by the source) counts as
never matching. -/
def regexSearch (regex path : String) : Bool :=
  match parseRegex regex.data with
  | none => false
  | some r => regexSearchL r path.data

/-- Model of `IgnoreManager._pattern_to_regex`: the exact chain of string rewrites of
`ignore_utils.py` lines 54–97, producing the regex source text. -/
def pattern_to_regex (pattern : String) : String :=
  let p := pyReplace (pyStrip pattern) "\\" "/"
  let dir_only := strEndsWith p "/"
  let p := if dir_only then strDropLast p else p
  let anchored := strStartsWith p "/"
  let p := if anchored then strDrop p 1 else p
  let p : String := ⟨reEscapeL p.data⟩
  let p := pyReplace p "\\*\\*/" ".*?/"
  let p := pyReplace p "\\*\\*" ".*?"
  let p := pyReplace p "\\*" "[^/]*"
  let p := pyReplace p "\\?" "[^/]"
  let p := if anchored then "^" ++ p else "(^|/)" ++ p
  if dir_only then p ++ "(/|$)" else p ++ "$"

example : pattern_to_regex "build" = "(^|/)build$" := by decide
example : pattern_to_regex "a/**/b" = "(^|/)a/.*?/b$" := by decide
example : pattern_to_regex "node_modules/" = "(^|/)node_modules(/|$)" := by decide
example : pattern_to_regex "node_modules/keep/*.tmp"
    = "(^|/)node_modules/keep/[^/]*\\.tmp$" := by decide
example : regexSearch (pattern_to_regex "a/**/b") "a/x/y/b" = true := by decide
example : regexSearch (pattern_to_regex "a/**/b") "a/b" = false := by decide
example : regexSearch (pattern_to_regex "build") "x/build/y/out.txt" = false := by decide
example : regexSearch (pattern_to_regex "build") "rebuild/out.txt" = false := by decide
example : regexSearch (pattern_to_regex "node_modules/") "node_modules/drop/y.js" = true := by
  decide

/-! ### The rule list and its operations -/

/-- The `_Rule` dataclass of `ignore_utils.py`: raw pattern text (without the `!` prefix),
negation flag, and the compiled regex (`None` until compiled; the model
stores the regex source text, matching through `regexSearch`). -/
structure _Rule where
  raw : String
  is_negation : Bool
  regex : Option String
deriving DecidableEq, Repr

/-- The (pattern text, negation flag) projection of a rule list. -/
def rule_keys (rules : List _Rule) : List (String × Bool) :=
  rules.map fun r => (r.raw, r.is_negation)

/-- Model of `IgnoreManager.compile_patterns`: recompile every rule from its raw
pattern. -/
def compile_patterns (rules : List _Rule) : List _Rule :=
  rules.map fun r => { r with regex := some (pattern_to_regex r.raw) }

/-- One iteration of the `_load_patterns` read loop: strip the line, skip
blanks and `#` comments, split off a leading `!`. -/
def parse_line (line : String) : Option _Rule :=
  let line := pyStrip line
  if line == "" || strStartsWith line "#" then none
  else
    some ⟨if strStartsWith line "!" then strDrop line 1 else line,
          strStartsWith line "!", none⟩

/-- Model of `IgnoreManager._load_patterns` on the list of lines of the `.ignore`
file: parse each line in order, then compile. -/
def load_patterns_lines (lines : List String) : List _Rule :=
  compile_patterns (lines.filterMap parse_line)

/-- Split file contents at `'\n'` (Python line iteration; the trailing `\n`
of each chunk is consumed by the `strip` in `parse_line` either way). -/
def splitOnNl : List Char → List (List Char)
  | [] => [[]]
  | c :: cs =>
    if c == '\n' then [] :: splitOnNl cs
    else
      match splitOnNl cs with
      | [] => [[c]]
      | l :: ls => (c :: l) :: ls

/-- Model of `IgnoreManager._load_patterns` on raw file contents. -/
def load_patterns (content : String) : List _Rule :=
  load_patterns_lines ((splitOnNl content.data).map fun l => ⟨l⟩)

/-- Model of `IgnoreManager.save_patterns`: the text written to the `.ignore` file,
one rule per line, negations re-prefixed with `!`. -/
def save_patterns : List _Rule → String
  | [] => ""
  | r :: rs => ((if r.is_negation then "!" else "") ++ r.raw ++ "\n") ++ save_patterns rs

/-- The rule-scanning loop of `IgnoreManager.should_ignore` (lines 116–121):
`ignored` starts `false`, every matching rule overwrites it with the negation
of its flag, the final value is returned.  `none` models the
`assert r.regex is not None` failing. -/
def scan_rules (rules : List _Rule) (rel_path : String) (ignored : Bool) : Option Bool :=
  match rules with
  | [] => some ignored
  | r :: rs =>
    match r.regex with
    | none => none
    | some rx => scan_rules rs rel_path (if regexSearch rx rel_path then !r.is_negation else ignored)

/-- Model of `IgnoreManager.should_ignore`.  The argument is the outcome of
`str(Path(path).resolve().relative_to(self.base_dir.resolve()))`: `none` is
the `except (ValueError, OSError)` branch (path outside the project root),
which returns `False` before any rule is consulted. -/
def should_ignore (rules : List _Rule) (rel_path : Option String) : Option Bool :=
  match rel_path with
  | none => some false
  | some p => scan_rules rules (pyReplace p "\\" "/") false

/-- A call to `should_ignore` as a (result, post-state) pair: the method body
reads `self._rules` and never assigns to it. -/
def should_ignore_run (rules : List _Rule) (rel_path : Option String) :
    Option Bool × List _Rule :=
  (should_ignore rules rel_path, rules)

/-- Model of `IgnoreManager.add_pattern`: strip, no-op on empty, split `!`, append
unless an identical (raw, negation) rule exists, recompile. -/
def add_pattern (rules : List _Rule) (pattern : String) : List _Rule :=
  let pattern := pyStrip pattern
  if pattern == "" then rules
  else
    let is_neg := strStartsWith pattern "!"
    let raw := if is_neg then strDrop pattern 1 else pattern
    let rules :=
      if rules.any fun r => r.raw == raw && r.is_negation == is_neg then rules
      else rules ++ [⟨raw, is_neg, none⟩]
    compile_patterns rules

/-- Model of `IgnoreManager.remove_pattern`: strip, `False` on empty, split `!`,
drop every rule with the same (raw, negation), report whether the length
changed, recompile only when something was removed. -/
def remove_pattern (rules : List _Rule) (pattern : String) : Bool × List _Rule :=
  let pattern := pyStrip pattern
  if pattern == "" then (false, rules)
  else
    let is_neg := strStartsWith pattern "!"
    let raw := if is_neg then strDrop pattern 1 else pattern
    let kept := rules.filter fun r => !(r.raw == raw && r.is_negation == is_neg)
    if kept.length != rules.length then (true, compile_patterns kept) else (false, kept)

/-- Model of `IgnoreManager.list_patterns`: patterns in stored order, negations
re-prefixed with `!`. -/
def list_patterns (rules : List _Rule) : List String :=
  rules.map fun r => (if r.is_negation then "!" else "") ++ r.raw

/-- Model of `IgnoreManager.clear_patterns`: the rule list is emptied. -/
def clear_patterns : List _Rule := []

/-- Model of `sorted({p for p in l if p.strip()})` — the distinct elements of `l`
(keeping only strip-nonempty ones is done by the caller), in increasing
string order. -/
def pySortedSet (l : List String) : List String :=
  List.insertionSort (· ≤ ·) l.dedup

/-- Model of `IgnoreManager.set_patterns`: replace the rule list by the strip-nonempty
normal patterns in sorted order, then the strip-nonempty negation patterns in
sorted order (each stored stripped), and compile. -/
def set_patterns (normals negations : List String) : List _Rule :=
  compile_patterns
    ((pySortedSet (normals.filter fun p => pyStrip p != "")).map
        (fun p => ⟨pyStrip p, false, none⟩)
      ++ (pySortedSet (negations.filter fun p => pyStrip p != "")).map
        (fun p => ⟨pyStrip p, true, none⟩))

example :
    should_ignore
      (add_pattern (add_pattern (add_pattern clear_patterns "node_modules/")
        "!node_modules/keep/") "node_modules/keep/*.tmp")
      (some "node_modules/drop/y.js") = some true := by decide

example :
    should_ignore
      (add_pattern (add_pattern (add_pattern clear_patterns "node_modules/")
        "!node_modules/keep/") "node_modules/keep/*.tmp")
      (some "node_modules/keep/x.js") = some false := by decide

example :
    should_ignore
      (add_pattern (add_pattern (add_pattern clear_patterns "node_modules/")
        "!node_modules/keep/") "node_modules/keep/*.tmp")
      (some "node_modules/keep/tmp.tmp") = some true := by decide

example : list_patterns (set_patterns ["*.pyc"] ["keep.pyc"]) = ["*.pyc", "!keep.pyc"] := by
  decide

example : rule_keys (load_patterns_lines ["a", "a"]) = [("a", false), ("a", false)] := by
  decide

example : rule_keys (load_patterns (save_patterns [⟨"!x", false, none⟩])) = [("x", true)] := by
  decide

example : rule_keys (load_patterns (save_patterns [⟨"#gen", false, none⟩])) = [] := by
  decide

/-! ### General lemmas about the scan loop -/

/-- Decision taken from the last matching rule: `init` when no rule matched,
otherwise the negation of the last matching rule's flag. -/
def last_rule_decision (init : Bool) : Option _Rule → Bool
  | none => init
  | some r => !r.is_negation

/-- Every rule produced by `compile_patterns` carries the compilation of its
own raw pattern. -/
def well_compiled (rules : List _Rule) : Prop :=
  ∀ r ∈ rules, r.regex = some (pattern_to_regex r.raw)

lemma well_compiled_compile_patterns (rules : List _Rule) :
    well_compiled (compile_patterns rules) := by
  intro r hr
  simp only [compile_patterns, List.mem_map] at hr
  obtain ⟨a, _, rfl⟩ := hr
  rfl

lemma scan_rules_eq_foldl (rules : List _Rule) (path : String) (ign : Bool)
    (h : well_compiled rules) :
    scan_rules rules path ign =
      some (rules.foldl
        (fun acc r => if regexSearch (pattern_to_regex r.raw) path then !r.is_negation else acc)
        ign) := by
  induction rules generalizing ign with
  | nil => rfl
  | cons r rs ih =>
    have hr : r.regex = some (pattern_to_regex r.raw) := h r (by simp)
    rw [List.foldl_cons, scan_rules, hr]
    exact ih _ fun x hx => h x (List.mem_cons_of_mem _ hx)

lemma foldl_eq_last_match (p : _Rule → Bool) (rules : List _Rule) (init : Bool) :
    rules.foldl (fun acc r => if p r then !r.is_negation else acc) init =
      last_rule_decision init ((rules.filter p).getLast?) := by
  induction rules using List.reverseRecOn with
  | nil => rfl
  | append_singleton l a ih =>
    rw [List.foldl_append, List.filter_append]
    by_cases hp : p a
    · simp [hp, last_rule_decision]
    · simp [hp, ih]

/-! ### The claims -/

/-- Claim C1: `should_ignore` starts from `ignored = false`, scans the rules in
stored insertion order, overwrites `ignored` with the negation of each
matching rule's flag, and returns the final value — so the last matching
rule wins; and on the rules `["node_modules/", "!node_modules/keep/",
"node_modules/keep/*.tmp"]` added in that order, `node_modules/drop/y.js`
is ignored, `node_modules/keep/x.js` is not, and
`node_modules/keep/tmp.tmp` is ignored. -/
theorem claim1_should_ignore_last_match_wins :
    (∀ (rules : List _Rule) (rel : String),
      should_ignore (compile_patterns rules) (some rel) =
        some (last_rule_decision false
          ((rules.filter fun r =>
              regexSearch (pattern_to_regex r.raw) (pyReplace rel "\\" "/")).getLast?)))
    ∧ should_ignore
        (add_pattern (add_pattern (add_pattern clear_patterns "node_modules/")
          "!node_modules/keep/") "node_modules/keep/*.tmp")
        (some "node_modules/drop/y.js") = some true
    ∧ should_ignore
        (add_pattern (add_pattern (add_pattern clear_patterns "node_modules/")
          "!node_modules/keep/") "node_modules/keep/*.tmp")
        (some "node_modules/keep/x.js") = some false
    ∧ should_ignore
        (add_pattern (add_pattern (add_pattern clear_patterns "node_modules/")
          "!node_modules/keep/") "node_modules/keep/*.tmp")
        (some "node_modules/keep/tmp.tmp") = some true := by
  refine ⟨?_, by decide, by decide, by decide⟩
  intro rules rel
  simp only [should_ignore]
  rw [scan_rules_eq_foldl _ _ _ (well_compiled_compile_patterns rules)]
  rw [compile_patterns, List.foldl_map]
  exact congrArg some
    (foldl_eq_last_match
      (fun r => regexSearch (pattern_to_regex r.raw) (pyReplace rel "\\" "/")) rules false)

/-- Claim C2 (code bug): the compiled matcher for `a/**/b` is the regex
`(^|/)a/.*?/b$`, which matches `a/x/y/b` but does NOT match `a/b` — the
`.*?/` fragment still demands the literal `/`, so the globstar requires at
least one path segment, contradicting the spec and the repository's own test
`test_double_star_zero_or_more_dirs`. -/
theorem claim2_globstar_requires_one_segment :
    pattern_to_regex "a/**/b" = "(^|/)a/.*?/b$"
    ∧ should_ignore (add_pattern clear_patterns "a/**/b") (some "a/b") = some false
    ∧ should_ignore (add_pattern clear_patterns "a/**/b") (some "a/x/y/b") = some true := by
  refine ⟨by decide, by decide, by decide⟩

/-- Claim C3 (code bug): the compiled matcher for the slash-free pattern `build` is
`(^|/)build$`, whose `$` suffix forces the match to end at the end of the
path.  Hence it rejects `rebuild/out.txt` as claimed, but it also rejects
`x/build/y/out.txt` (and the test's own path `x/build/out.txt`),
contradicting the spec and the repository's test
`test_segment_boundary_matching`. -/
theorem claim3_unanchored_requires_tail_match :
    pattern_to_regex "build" = "(^|/)build$"
    ∧ should_ignore (add_pattern clear_patterns "build") (some "x/build/y/out.txt") = some false
    ∧ should_ignore (add_pattern clear_patterns "build") (some "x/build/out.txt") = some false
    ∧ should_ignore (add_pattern clear_patterns "build") (some "rebuild/out.txt") = some false := by
  refine ⟨by decide, by decide, by decide, by decide⟩

/-- Claim C4: when the input path cannot be expressed relative to the project root
(the `relative_to` call raises, modelled by the `none` argument),
`should_ignore` returns `false` for every rule list — it neither raises nor
reports such a path as ignored. -/
theorem claim4_outside_root_never_ignored :
    ∀ rules : List _Rule, should_ignore rules none = some false :=
  fun _ => rfl

/-- Claim C5: a call to `should_ignore` is a pure function of the rule list and the
input path: two calls on the same arguments return the same value, and the
call leaves the rule list unchanged. -/
theorem claim5_should_ignore_pure :
    ∀ (rules : List _Rule) (rel : Option String),
      should_ignore_run rules rel = should_ignore_run rules rel
      ∧ (should_ignore_run rules rel).2 = rules
      ∧ (should_ignore_run rules rel).1 = should_ignore rules rel :=
  fun _ _ => ⟨rfl, rfl, rfl⟩

/-! ### C6: shape of `set_patterns` -/

/-- The non-negated rules of a list, in order. -/
def normal_rules (rules : List _Rule) : List _Rule :=
  rules.filter fun r => !r.is_negation

/-- The negated rules of a list, in order. -/
def negation_rules (rules : List _Rule) : List _Rule :=
  rules.filter fun r => r.is_negation

lemma filter_map_const_true {α : Type} (l : List α) (f : α → _Rule) (p : _Rule → Bool)
    (hf : ∀ a, p (f a) = true) : (l.map f).filter p = l.map f := by
  induction l with
  | nil => rfl
  | cons a t ih => simp [List.filter_cons, hf, ih]

lemma filter_map_const_false {α : Type} (l : List α) (f : α → _Rule) (p : _Rule → Bool)
    (hf : ∀ a, p (f a) = false) : (l.map f).filter p = [] := by
  induction l with
  | nil => rfl
  | cons a t ih => simp [List.filter_cons, hf, ih]

lemma normal_rules_set_patterns (N G : List String) :
    normal_rules (set_patterns N G) =
      (pySortedSet (N.filter fun p => pyStrip p != "")).map
        (fun p => ⟨pyStrip p, false, some (pattern_to_regex (pyStrip p))⟩) := by
  rw [set_patterns, compile_patterns, normal_rules, List.map_append, List.map_map,
    List.map_map, List.filter_append,
    filter_map_const_true _ _ _ (fun a => rfl),
    filter_map_const_false _ _ _ (fun a => rfl), List.append_nil]
  rfl

lemma negation_rules_set_patterns (N G : List String) :
    negation_rules (set_patterns N G) =
      (pySortedSet (G.filter fun p => pyStrip p != "")).map
        (fun p => ⟨pyStrip p, true, some (pattern_to_regex (pyStrip p))⟩) := by
  rw [set_patterns, compile_patterns, negation_rules, List.map_append, List.map_map,
    List.map_map, List.filter_append,
    filter_map_const_false _ _ _ (fun a => rfl),
    filter_map_const_true _ _ _ (fun a => rfl), List.nil_append]
  rfl

lemma mem_pySortedSet {p : String} {l : List String} : p ∈ pySortedSet l ↔ p ∈ l := by
  unfold pySortedSet
  rw [(List.perm_insertionSort _ _).mem_iff, List.mem_dedup]

/-- Claim C6: `set_patterns` replaces the rule list by all non-negated rules first
and all negated rules second; for whitespace-clean inputs each block's stored
patterns are in sorted order; and
`list_patterns (set_patterns {"*.pyc"} {"keep.pyc"}) = ["*.pyc", "!keep.pyc"]`. -/
theorem claim6_set_patterns_sorted_blocks :
    (∀ N G : List String,
      set_patterns N G = normal_rules (set_patterns N G) ++ negation_rules (set_patterns N G))
    ∧ (∀ N G : List String, (∀ p ∈ N, pyStrip p = p) →
        List.Sorted (· ≤ ·) ((normal_rules (set_patterns N G)).map _Rule.raw))
    ∧ (∀ N G : List String, (∀ p ∈ G, pyStrip p = p) →
        List.Sorted (· ≤ ·) ((negation_rules (set_patterns N G)).map _Rule.raw))
    ∧ list_patterns (set_patterns ["*.pyc"] ["keep.pyc"]) = ["*.pyc", "!keep.pyc"] := by
  refine ⟨?_, ?_, ?_, by decide⟩
  · intro N G
    rw [normal_rules_set_patterns, negation_rules_set_patterns, set_patterns,
      compile_patterns, List.map_append, List.map_map, List.map_map]
    rfl
  · intro N G h
    rw [normal_rules_set_patterns, List.map_map]
    have hmap :
        ((pySortedSet (N.filter fun p => pyStrip p != "")).map
          (_Rule.raw ∘ fun p => (⟨pyStrip p, false, some (pattern_to_regex (pyStrip p))⟩ : _Rule)))
          = (pySortedSet (N.filter fun p => pyStrip p != "")).map id := by
      apply List.map_congr_left
      intro p hp
      exact h p (List.mem_filter.mp (mem_pySortedSet.mp hp)).1
    rw [hmap, List.map_id]
    exact List.sorted_insertionSort _ _
  · intro N G h
    rw [negation_rules_set_patterns, List.map_map]
    have hmap :
        ((pySortedSet (G.filter fun p => pyStrip p != "")).map
          (_Rule.raw ∘ fun p => (⟨pyStrip p, true, some (pattern_to_regex (pyStrip p))⟩ : _Rule)))
          = (pySortedSet (G.filter fun p => pyStrip p != "")).map id := by
      apply List.map_congr_left
      intro p hp
      exact h p (List.mem_filter.mp (mem_pySortedSet.mp hp)).1
    rw [hmap, List.map_id]
    exact List.sorted_insertionSort _ _

/-- Witness for C6: a concrete instance of the sortedness conjunct. -/
theorem claim6_witness :
    List.Sorted (· ≤ ·) ((normal_rules (set_patterns ["*.pyc"] [])).map _Rule.raw) :=
  claim6_set_patterns_sorted_blocks.2.1 ["*.pyc"] [] (by decide)

/-! ### C7/C9: parsing of the `!` prefix, duplicates -/

/-- The negation flag `add_pattern` and `remove_pattern` read off their
input (`pattern.strip().startswith("!")`). -/
def parsed_neg (pattern : String) : Bool :=
  strStartsWith (pyStrip pattern) "!"

/-- The raw pattern body `add_pattern` and `remove_pattern` store/search
(`pattern[1:]` when negated). -/
def parsed_raw (pattern : String) : String :=
  if parsed_neg pattern then strDrop (pyStrip pattern) 1 else pyStrip pattern

lemma rule_keys_compile_patterns (rules : List _Rule) :
    rule_keys (compile_patterns rules) = rule_keys rules := by
  rw [rule_keys, compile_patterns, List.map_map]
  rfl

lemma any_key_iff (rules : List _Rule) (raw : String) (neg : Bool) :
    (rules.any fun r => r.raw == raw && r.is_negation == neg) = true ↔
      (raw, neg) ∈ rule_keys rules := by
  unfold rule_keys
  simp only [List.any_eq_true, List.mem_map, Bool.and_eq_true, beq_iff_eq]
  constructor
  · rintro ⟨r, hr, h1, h2⟩
    exact ⟨r, hr, by rw [h1, h2]⟩
  · rintro ⟨r, hr, hkey⟩
    refine ⟨r, hr, ?_, ?_⟩
    · exact congrArg Prod.fst hkey
    · exact congrArg Prod.snd hkey

lemma add_pattern_eq (rules : List _Rule) (p : String) (h : pyStrip p ≠ "") :
    add_pattern rules p =
      if (parsed_raw p, parsed_neg p) ∈ rule_keys rules
      then compile_patterns rules
      else compile_patterns (rules ++ [⟨parsed_raw p, parsed_neg p, none⟩]) := by
  unfold add_pattern
  rw [if_neg (by simp [h])]
  show compile_patterns
        (if (rules.any fun r => r.raw == parsed_raw p && r.is_negation == parsed_neg p) = true
         then rules else rules ++ [⟨parsed_raw p, parsed_neg p, none⟩])
      = if (parsed_raw p, parsed_neg p) ∈ rule_keys rules
        then compile_patterns rules
        else compile_patterns (rules ++ [⟨parsed_raw p, parsed_neg p, none⟩])
  by_cases hm : (parsed_raw p, parsed_neg p) ∈ rule_keys rules
  · rw [if_pos ((any_key_iff rules _ _).mpr hm), if_pos hm]
  · rw [if_neg (fun hc => hm ((any_key_iff rules _ _).mp hc)), if_neg hm]

lemma remove_pattern_eq (rules : List _Rule) (p : String) (h : pyStrip p ≠ "") :
    remove_pattern rules p =
      (let kept := rules.filter fun r => !(r.raw == parsed_raw p && r.is_negation == parsed_neg p)
       if kept.length != rules.length then (true, compile_patterns kept) else (false, kept)) := by
  unfold remove_pattern
  rw [if_neg (by simp [h])]
  rfl

/-- Counterexample to C7 as stated: the rule list is not always
duplicate-free — `_load_patterns` on a file containing the same line twice
stores two rules with identical (pattern text, negation flag). -/
theorem claim7_counterexample :
    rule_keys (load_patterns_lines ["a", "a"]) = [("a", false), ("a", false)]
    ∧ ¬ (rule_keys (load_patterns_lines ["a", "a"])).Nodup := by
  exact ⟨by decide, by decide⟩

/-- Claim C7 (amended): `add_pattern` of an already-present (raw, negation) pair
leaves the stored (pattern, flag) list unchanged, adding the same pattern
text twice stores it once, and `add_pattern`/`remove_pattern` preserve the
no-duplicates invariant; the loader and `set_patterns` can, however, create
duplicates (see the counterexample). -/
theorem claim7_dedup_amended :
    (∀ (rules : List _Rule) (p : String), pyStrip p ≠ "" →
      (parsed_raw p, parsed_neg p) ∈ rule_keys rules →
      rule_keys (add_pattern rules p) = rule_keys rules)
    ∧ (∀ (rules : List _Rule) (p : String),
        (rule_keys rules).Nodup → (rule_keys (add_pattern rules p)).Nodup)
    ∧ (∀ (rules : List _Rule) (p : String),
        (rule_keys rules).Nodup → (rule_keys (remove_pattern rules p).2).Nodup)
    ∧ rule_keys (add_pattern (add_pattern clear_patterns "same.txt") "same.txt")
        = [("same.txt", false)] := by
  have hsub : ∀ (rules : List _Rule) (q : _Rule → Bool),
      (rule_keys rules).Nodup → (rule_keys (rules.filter q)).Nodup := by
    intro rules q hnd
    exact hnd.sublist (List.Sublist.map _ (List.filter_sublist rules))
  refine ⟨?_, ?_, ?_, by decide⟩
  · intro rules p h hm
    rw [add_pattern_eq rules p h, if_pos hm, rule_keys_compile_patterns]
  · intro rules p hnd
    by_cases h : pyStrip p = ""
    · unfold add_pattern
      rw [if_pos (by simp [h])]
      exact hnd
    · rw [add_pattern_eq rules p h]
      by_cases hm : (parsed_raw p, parsed_neg p) ∈ rule_keys rules
      · rw [if_pos hm, rule_keys_compile_patterns]
        exact hnd
      · rw [if_neg hm, rule_keys_compile_patterns]
        have hkeys : rule_keys (rules ++ [⟨parsed_raw p, parsed_neg p, none⟩])
            = rule_keys rules ++ [(parsed_raw p, parsed_neg p)] := by
          simp [rule_keys]
        rw [hkeys]
        exact List.Nodup.append hnd (List.nodup_singleton _)
          (fun a ha hb => hm ((List.mem_singleton.mp hb) ▸ ha))
  · intro rules p hnd
    by_cases h : pyStrip p = ""
    · unfold remove_pattern
      rw [if_pos (by simp [h])]
      exact hnd
    · rw [remove_pattern_eq rules p h]
      by_cases hlen :
          ((rules.filter fun r =>
            !(r.raw == parsed_raw p && r.is_negation == parsed_neg p)).length
            != rules.length) = true
      · simp only [hlen, if_pos]
        rw [rule_keys_compile_patterns]
        exact hsub rules _ hnd
      · simp only [hlen]
        simp only [Bool.false_eq_true, if_false]
        exact hsub rules _ hnd

/-- Witness for C7: the no-op and preservation statements at a concrete
rule list. -/
theorem claim7_witness :
    rule_keys (add_pattern [⟨"x", false, some "(^|/)x$"⟩] "x")
        = rule_keys [(⟨"x", false, some "(^|/)x$"⟩ : _Rule)]
    ∧ (rule_keys (add_pattern [⟨"x", false, some "(^|/)x$"⟩] "y")).Nodup :=
  ⟨claim7_dedup_amended.1 [⟨"x", false, some "(^|/)x$"⟩] "x" (by decide) (by decide),
   claim7_dedup_amended.2.1 [⟨"x", false, some "(^|/)x$"⟩] "y" (by decide)⟩

/-! ### C8: compiled matchers are never missing or stale -/

/-- Claim C8: every operation that builds or mutates the rule list leaves every
rule's compiled regex equal to the compilation of its raw pattern, and under
that invariant the `assert r.regex is not None` inside `should_ignore` can
never fail (the scan always returns a value). -/
theorem claim8_compiled_invariant :
    (∀ lines : List String, well_compiled (load_patterns_lines lines))
    ∧ (∀ content : String, well_compiled (load_patterns content))
    ∧ (∀ (rules : List _Rule) (p : String),
        well_compiled rules → well_compiled (add_pattern rules p))
    ∧ (∀ (rules : List _Rule) (p : String),
        well_compiled rules → well_compiled (remove_pattern rules p).2)
    ∧ (∀ N G : List String, well_compiled (set_patterns N G))
    ∧ well_compiled clear_patterns
    ∧ (∀ (rules : List _Rule) (rel : String),
        well_compiled rules → (should_ignore rules (some rel)).isSome = true) := by
  refine ⟨fun _ => well_compiled_compile_patterns _,
          fun _ => well_compiled_compile_patterns _, ?_, ?_,
          fun _ _ => well_compiled_compile_patterns _,
          fun r hr => absurd hr (List.not_mem_nil r), ?_⟩
  · intro rules p h
    unfold add_pattern
    by_cases hp : pyStrip p = ""
    · rw [if_pos (by simp [hp])]
      exact h
    · rw [if_neg (by simp [hp])]
      exact well_compiled_compile_patterns _
  · intro rules p h
    unfold remove_pattern
    by_cases hp : pyStrip p = ""
    · rw [if_pos (by simp [hp])]
      exact h
    · rw [if_neg (by simp [hp])]
      by_cases hlen :
          ((rules.filter fun r =>
              !(r.raw == (if strStartsWith (pyStrip p) "!" then strDrop (pyStrip p) 1
                          else pyStrip p)
                && r.is_negation == strStartsWith (pyStrip p) "!")).length
            != rules.length) = true
      · simp only [hlen, if_pos]
        exact well_compiled_compile_patterns _
      · simp only [hlen, Bool.false_eq_true, if_false]
        exact fun r hr => h r (List.mem_of_mem_filter hr)
  · intro rules rel h
    simp only [should_ignore]
    rw [scan_rules_eq_foldl _ _ _ h]
    rfl

/-- Witness for C8: the invariant and the non-failing scan at a concrete
state. -/
theorem claim8_witness :
    (should_ignore (set_patterns ["x"] []) (some "f.txt")).isSome = true :=
  claim8_compiled_invariant.2.2.2.2.2.2 (set_patterns ["x"] []) "f.txt"
    (claim8_compiled_invariant.2.2.2.2.1 ["x"] [])

/-! ### C9: `remove_pattern` -/

lemma remove_pattern_if (rules : List _Rule) (p : String) (h : pyStrip p ≠ "") :
    remove_pattern rules p =
      if ((rules.filter fun r =>
            !(r.raw == parsed_raw p && r.is_negation == parsed_neg p)).length
          != rules.length) = true
      then (true, compile_patterns (rules.filter fun r =>
            !(r.raw == parsed_raw p && r.is_negation == parsed_neg p)))
      else (false, rules.filter fun r =>
            !(r.raw == parsed_raw p && r.is_negation == parsed_neg p)) := by
  unfold remove_pattern
  rw [if_neg (by simp [h])]
  rfl

lemma length_filter_eq_iff {α : Type} (l : List α) (q : α → Bool) :
    (l.filter q).length = l.length ↔ ∀ a ∈ l, q a = true := by
  induction l with
  | nil => simp
  | cons a t ih =>
    cases hq : q a with
    | true =>
      simp only [List.filter_cons, hq, if_pos, List.length_cons, Nat.succ_inj, ih,
        List.mem_cons]
      constructor
      · intro hall x hx
        cases hx with
        | inl he => rw [he]; exact hq
        | inr hm => exact hall x hm
      · intro hall x hx
        exact hall x (Or.inr hx)
    | false =>
      refine iff_of_false ?_ ?_
      · intro heq
        have hle := List.length_filter_le q t
        rw [List.filter_cons, hq] at heq
        simp only [Bool.false_eq_true, if_false, List.length_cons] at heq
        omega
      · intro hall
        exact Bool.false_ne_true (hq ▸ hall a (List.mem_cons_self a t))

lemma filter_all_true {α : Type} {l : List α} {q : α → Bool}
    (hall : ∀ a ∈ l, q a = true) : l.filter q = l := by
  induction l with
  | nil => rfl
  | cons a t ih =>
    rw [List.filter_cons, hall a (List.mem_cons_self a t), if_pos rfl]
    exact congrArg _ (ih fun x hx => hall x (List.mem_cons_of_mem a hx))

lemma rule_keys_filter_key (rules : List _Rule) (raw : String) (neg : Bool) :
    rule_keys (rules.filter fun r => !(r.raw == raw && r.is_negation == neg)) =
      (rule_keys rules).filter fun k => !(k.1 == raw && k.2 == neg) := by
  induction rules with
  | nil => rfl
  | cons r t ih =>
    cases hq : (r.raw == raw && r.is_negation == neg) with
    | true =>
      simp only [rule_keys, List.map_cons, List.filter_cons, hq] at *
      simpa using ih
    | false =>
      simp only [rule_keys, List.map_cons, List.filter_cons, hq] at *
      simpa using ih

lemma remove_pattern_removed_iff (rules : List _Rule) (text : String)
    (h : pyStrip text ≠ "") :
    (remove_pattern rules text).1 = true ↔
      ∃ r ∈ rules, r.raw = parsed_raw text ∧ r.is_negation = parsed_neg text := by
  rw [remove_pattern_if rules text h]
  by_cases hlen : ((rules.filter fun r =>
      !(r.raw == parsed_raw text && r.is_negation == parsed_neg text)).length
        != rules.length) = true
  · rw [if_pos hlen]
    refine iff_of_true rfl ?_
    have hne : ¬ ((rules.filter fun r =>
        !(r.raw == parsed_raw text && r.is_negation == parsed_neg text)).length
          = rules.length) := by
      simpa using hlen
    have hnotall : ¬ ∀ r ∈ rules,
        (!(r.raw == parsed_raw text && r.is_negation == parsed_neg text)) = true :=
      fun hall => hne ((length_filter_eq_iff _ _).mpr hall)
    push_neg at hnotall
    obtain ⟨r, hr, hq⟩ := hnotall
    refine ⟨r, hr, ?_⟩
    have hb : (r.raw == parsed_raw text && r.is_negation == parsed_neg text) = true := by
      revert hq
      cases r.raw == parsed_raw text && r.is_negation == parsed_neg text <;> simp
    simp only [Bool.and_eq_true, beq_iff_eq] at hb
    exact hb
  · rw [if_neg hlen]
    refine iff_of_false (by simp) ?_
    have heq : (rules.filter fun r =>
        !(r.raw == parsed_raw text && r.is_negation == parsed_neg text)).length
          = rules.length := by
      have hx : ((rules.filter fun r =>
          !(r.raw == parsed_raw text && r.is_negation == parsed_neg text)).length
            != rules.length) = false := by
        cases hxx : ((rules.filter fun r =>
            !(r.raw == parsed_raw text && r.is_negation == parsed_neg text)).length
              != rules.length)
        · rfl
        · exact absurd hxx hlen
      exact bne_eq_false_iff_eq.mp hx
    have hall := (length_filter_eq_iff _ _).mp heq
    rintro ⟨r, hr, h1, h2⟩
    have := hall r hr
    rw [h1, h2] at this
    simp at this

/-- Claim C9: `remove_pattern` parses the `!` prefix exactly as `add_pattern` does
(removing right after adding the same text always succeeds), removes exactly
the rules whose (raw, negation) pair equals the parsed one, returns `true`
iff such a rule was present, and leaves the rule list unchanged whenever it
returns `false`. -/
theorem claim9_remove_pattern_spec :
    ∀ (rules : List _Rule) (text : String),
      ((remove_pattern rules text).1 = false → (remove_pattern rules text).2 = rules)
      ∧ (pyStrip text ≠ "" →
          ((remove_pattern rules text).1 = true ↔
            ∃ r ∈ rules, r.raw = parsed_raw text ∧ r.is_negation = parsed_neg text))
      ∧ (pyStrip text ≠ "" →
          rule_keys (remove_pattern rules text).2 =
            (rule_keys rules).filter
              fun k => !(k.1 == parsed_raw text && k.2 == parsed_neg text))
      ∧ (pyStrip text ≠ "" → (remove_pattern (add_pattern rules text) text).1 = true) := by
  intro rules text
  by_cases h : pyStrip text = ""
  · have hval : remove_pattern rules text = (false, rules) := by
      unfold remove_pattern
      rw [if_pos (by simp [h])]
    exact ⟨fun _ => by rw [hval], fun hne => absurd h hne, fun hne => absurd h hne,
      fun hne => absurd h hne⟩
  · refine ⟨?_, fun _ => remove_pattern_removed_iff rules text h, ?_, ?_⟩
    · intro hf
      rw [remove_pattern_if rules text h] at hf ⊢
      by_cases hlen : ((rules.filter fun r =>
          !(r.raw == parsed_raw text && r.is_negation == parsed_neg text)).length
            != rules.length) = true
      · rw [if_pos hlen] at hf
        exact absurd hf (by simp)
      · rw [if_neg hlen]
        have heq : (rules.filter fun r =>
            !(r.raw == parsed_raw text && r.is_negation == parsed_neg text)).length
              = rules.length := by
          have hx : ((rules.filter fun r =>
              !(r.raw == parsed_raw text && r.is_negation == parsed_neg text)).length
                != rules.length) = false := by
            cases hxx : ((rules.filter fun r =>
                !(r.raw == parsed_raw text && r.is_negation == parsed_neg text)).length
                  != rules.length)
            · rfl
            · exact absurd hxx hlen
          exact bne_eq_false_iff_eq.mp hx
        exact filter_all_true ((length_filter_eq_iff _ _).mp heq)
    · intro _
      rw [remove_pattern_if rules text h]
      by_cases hlen : ((rules.filter fun r =>
          !(r.raw == parsed_raw text && r.is_negation == parsed_neg text)).length
            != rules.length) = true
      · rw [if_pos hlen]
        show rule_keys (compile_patterns _) = _
        rw [rule_keys_compile_patterns, rule_keys_filter_key]
      · rw [if_neg hlen]
        exact rule_keys_filter_key rules (parsed_raw text) (parsed_neg text)
    · intro _
      rw [remove_pattern_removed_iff (add_pattern rules text) text h]
      have hkey : (parsed_raw text, parsed_neg text) ∈ rule_keys (add_pattern rules text) := by
        rw [add_pattern_eq rules text h]
        by_cases hm : (parsed_raw text, parsed_neg text) ∈ rule_keys rules
        · rw [if_pos hm, rule_keys_compile_patterns]
          exact hm
        · rw [if_neg hm, rule_keys_compile_patterns]
          simp [rule_keys]
      obtain ⟨r, hr, hkeq⟩ := List.mem_map.mp hkey
      exact ⟨r, hr, congrArg Prod.fst hkeq, congrArg Prod.snd hkeq⟩

/-- Witness for C9: removing right after adding succeeds on a concrete
pattern. -/
theorem claim9_witness :
    (remove_pattern (add_pattern [] "!cache/") "!cache/").1 = true :=
  (claim9_remove_pattern_spec [] "!cache/").2.2.2 (by decide)

/-! ### C10: the save/load round trip -/

lemma str_data_append (a b : String) : (a ++ b).data = a.data ++ b.data := by
  cases a
  cases b
  rfl

lemma splitOnNl_append (l rest : List Char) (hl : '\n' ∉ l) :
    splitOnNl (l ++ '\n' :: rest) = l :: splitOnNl rest := by
  induction l with
  | nil => simp [splitOnNl]
  | cons c cs ih =>
    have hc : (c == '\n') = false := by
      have : c ≠ '\n' := fun he => hl (he ▸ List.mem_cons_self c cs)
      exact beq_eq_false_iff_ne.mpr this
    rw [List.cons_append, splitOnNl, hc]
    simp only [Bool.false_eq_true, if_false]
    rw [ih (fun hm => hl (List.mem_cons_of_mem c hm))]

lemma length_dropWhile_le' {p : Char → Bool} (l : List Char) :
    (l.dropWhile p).length ≤ l.length := by
  induction l with
  | nil => exact Nat.le_refl _
  | cons c cs ih =>
    rw [List.dropWhile_cons]
    by_cases hc : p c = true
    · rw [if_pos hc]
      exact Nat.le_succ_of_le ih
    · rw [if_neg hc]

lemma dropWhile_append_fix (p : Char → Bool) (l m : List Char)
    (hl : l.dropWhile p = l) (hm : m.dropWhile p = m) :
    (l ++ m).dropWhile p = l ++ m := by
  cases l with
  | nil => simpa using hm
  | cons c cs =>
    have hc : p c = false := by
      cases hpc : p c
      · rfl
      · exfalso
        rw [List.dropWhile_cons, if_pos hpc] at hl
        have hlen := congrArg List.length hl
        have hle := length_dropWhile_le' (p := p) cs
        simp only [List.length_cons] at hlen
        omega
    rw [List.cons_append, List.dropWhile_cons, hc]
    simp

lemma pyStripL_bang (d : List Char) (h : (d.reverse.dropWhile pyIsSpace).reverse = d) :
    pyStripL ('!' :: d) = '!' :: d := by
  unfold pyStripL
  have h1 : ('!' :: d).dropWhile pyIsSpace = '!' :: d := by
    rw [List.dropWhile_cons, show pyIsSpace '!' = false from rfl]
    simp
  rw [h1, List.reverse_cons]
  have h2 : d.reverse.dropWhile pyIsSpace = d.reverse := by
    have hrev := congrArg List.reverse h
    rwa [List.reverse_reverse] at hrev
  rw [dropWhile_append_fix pyIsSpace d.reverse ['!'] h2 rfl]
  rw [List.reverse_append]
  simp

lemma pyStrip_bang (s : String) (h : pyStripRight s = s) :
    pyStrip ("!" ++ s) = "!" ++ s := by
  show String.mk (pyStripL ('!' :: s.data)) = String.mk ('!' :: s.data)
  exact congrArg String.mk (pyStripL_bang s.data (congrArg String.data h))

lemma parse_line_neg (raw : String) (hr : pyStripRight raw = raw) :
    parse_line ("!" ++ raw) = some ⟨raw, true, none⟩ := by
  have hc1 : (("!" ++ raw : String) == "") = false := by
    apply beq_eq_false_iff_ne.mpr
    intro hx
    have hd := congrArg String.data hx
    rw [str_data_append] at hd
    simp at hd
  have hc2 : strStartsWith ("!" ++ raw) "#" = false := by
    show List.isPrefixOf ['#'] (("!" ++ raw).data) = false
    rw [str_data_append]
    rfl
  have hc3 : strStartsWith ("!" ++ raw) "!" = true := by
    show List.isPrefixOf ['!'] (("!" ++ raw).data) = true
    rw [str_data_append]
    simp [List.isPrefixOf]
  have hc4 : strDrop ("!" ++ raw) 1 = raw := by
    show String.mk ((("!" ++ raw).data).drop 1) = raw
    rw [str_data_append]
    rfl
  unfold parse_line
  rw [pyStrip_bang raw hr]
  rw [if_neg (by rw [hc1, hc2]; simp), hc3, if_pos rfl, hc4]

lemma parse_line_normal (raw : String) (h1 : pyStrip raw = raw) (h2 : raw ≠ "")
    (h3 : strStartsWith raw "#" = false) (h4 : strStartsWith raw "!" = false) :
    parse_line raw = some ⟨raw, false, none⟩ := by
  unfold parse_line
  rw [h1, if_neg (by simp [h2, h3]), h4]
  simp

/-- Precondition under which one serialized rule is parsed back exactly:
no newline inside the pattern; a non-negated pattern is whitespace-clean,
non-empty and starts with neither `#` nor `!`; a negated pattern carries no
trailing whitespace. -/
def save_load_safe (r : _Rule) : Prop :=
  ('\n' ∉ r.raw.data)
  ∧ (r.is_negation = false →
      pyStrip r.raw = r.raw ∧ r.raw ≠ "" ∧ strStartsWith r.raw "#" = false
        ∧ strStartsWith r.raw "!" = false)
  ∧ (r.is_negation = true → pyStripRight r.raw = r.raw)

instance save_load_safe_dec (r : _Rule) : Decidable (save_load_safe r) := by
  unfold save_load_safe
  infer_instance

lemma load_save_aux (rules : List _Rule) (h : ∀ r ∈ rules, save_load_safe r) :
    ((splitOnNl (save_patterns rules).data).map (fun l => (⟨l⟩ : String))).filterMap parse_line
      = rules.map fun r => ⟨r.raw, r.is_negation, none⟩ := by
  induction rules with
  | nil => rfl
  | cons r rs ih =>
    obtain ⟨hnl, hnorm, hneg⟩ := h r (List.mem_cons_self r rs)
    have hdata : (save_patterns (r :: rs)).data
        = ((if r.is_negation then "!" else "") ++ r.raw).data
            ++ '\n' :: (save_patterns rs).data := by
      show (((if r.is_negation then "!" else "") ++ r.raw ++ "\n") ++ save_patterns rs).data = _
      rw [str_data_append, str_data_append, List.append_assoc]
      rfl
    have hnl' : '\n' ∉ ((if r.is_negation then "!" else "") ++ r.raw).data := by
      rw [str_data_append]
      intro hm
      rcases List.mem_append.mp hm with hma | hmb
      · cases hbool : r.is_negation <;> rw [hbool] at hma <;> simp at hma
      · exact hnl hmb
    rw [hdata, splitOnNl_append _ _ hnl', List.map_cons, List.filterMap_cons]
    have hline : (⟨((if r.is_negation then "!" else "") ++ r.raw).data⟩ : String)
        = (if r.is_negation then "!" else "") ++ r.raw := rfl
    rw [hline]
    cases hbool : r.is_negation with
    | true =>
      rw [if_pos rfl, parse_line_neg r.raw (hneg hbool)]
      dsimp only
      rw [List.map_cons, hbool]
      exact congrArg _ (ih fun x hx => h x (List.mem_cons_of_mem r hx))
    | false =>
      obtain ⟨p1, p2, p3, p4⟩ := hnorm hbool
      have hid2 : ("" ++ r.raw : String) = r.raw := by
        cases hx : r.raw
        rfl
      rw [if_neg (by simp), hid2, parse_line_normal r.raw p1 p2 p3 p4]
      dsimp only
      rw [List.map_cons, hbool]
      exact congrArg _ (ih fun x hx => h x (List.mem_cons_of_mem r hx))

/-- Counterexample to C10 as stated: the rule list consisting of the single
non-negated rule `"!x"` satisfies the claimed precondition (non-blank after
stripping, does not begin with `#`), yet saving and reloading turns it into
the negated rule `"x"`. -/
theorem claim10_counterexample :
    (pyStrip "!x" ≠ "" ∧ strStartsWith "!x" "#" = false)
    ∧ rule_keys (load_patterns (save_patterns [⟨"!x", false, none⟩])) = [("x", true)]
    ∧ rule_keys (load_patterns (save_patterns [⟨"!x", false, none⟩]))
        ≠ rule_keys [(⟨"!x", false, none⟩ : _Rule)] := by
  exact ⟨⟨by decide, by decide⟩, by decide, by decide⟩

/-- Claim C10 (amended): the save/load round trip reconstructs the ordered
(pattern, negation) list exactly when every rule is `save_load_safe`
(newline-free; non-negated rules whitespace-clean, non-empty, starting with
neither `#` nor `!`; negated rules without trailing whitespace); outside the
precondition rules can be dropped — a non-negated rule whose text starts
with `#` is serialized but reloaded as a comment. -/
theorem claim10_roundtrip_amended :
    (∀ rules : List _Rule, (∀ r ∈ rules, save_load_safe r) →
      rule_keys (load_patterns (save_patterns rules)) = rule_keys rules)
    ∧ rule_keys (load_patterns (save_patterns [⟨"#generated", false, none⟩])) = [] := by
  refine ⟨?_, by decide⟩
  intro rules h
  unfold load_patterns load_patterns_lines
  rw [rule_keys_compile_patterns, load_save_aux rules h, rule_keys, rule_keys, List.map_map]
  rfl

/-- Witness for C10: the round trip at a concrete two-rule list. -/
theorem claim10_witness :
    rule_keys (load_patterns (save_patterns
        [⟨"*.pyc", false, none⟩, ⟨"keep.pyc", true, none⟩]))
      = rule_keys [(⟨"*.pyc", false, none⟩ : _Rule), ⟨"keep.pyc", true, none⟩] :=
  claim10_roundtrip_amended.1 [⟨"*.pyc", false, none⟩, ⟨"keep.pyc", true, none⟩] (by decide)

end Contextr
